import Mathlib

/-!
Shallow embedding of the core of the `autodesk_forge_sdk` Python package:
the generic HTTP client base (`base.py`), the paginated fetcher
(`client.py`), the parameter-building call sites (`dm.py`, `wh.py`) and the
token-provider contract (`auth.py`, modelled from the specification since
its source is not part of the client core files available here).

Python dictionaries with string keys are embedded as association lists
(`List (String × PyValue)`) preserving insertion order, matching CPython's
ordered dicts.  Python `None` is the `PyValue.none` constructor; a raised
exception is an explicit error constructor of the result type.
-/

namespace ForgeSdk

/--
A Python value that can appear as the value of a query-parameter mapping in
this SDK: strings, booleans, integers, enumeration members and `None`.
An enumeration member carries its symbolic name, its underlying string
value, and whether its class also subclasses `str` (as `Region`, `Status`,
`Sort` and the event enums in the SDK do; `DataRetention` does not).
-/
inductive PyValue where
  | str (s : String)
  | bool (b : Bool)
  | int (n : Int)
  | enum (name : String) (val : String) (strSubclass : Bool)
  | none
  deriving DecidableEq, Repr

/-- A parameter mapping: an insertion-ordered Python dict `str -> value`. -/
abbrev Params := List (String × PyValue)

/-- Python truthiness of a `PyValue` (`if region:` style tests).
A `str`-subclassing enum member is truthy iff its underlying string is
non-empty; a plain enum member is always truthy. -/
def PyValue.truthy : PyValue → Bool
  | .str s => s ≠ ""
  | .bool b => b
  | .int n => n ≠ 0
  | .enum _ v sub => if sub then v ≠ "" else true
  | .none => false

/-- Is this value a Python `bool`? -/
def PyValue.isBool : PyValue → Bool
  | .bool _ => true
  | _ => false

/-- The transformation `_fix_params` (base.py) applies to a single entry:
a boolean becomes the literal string `"true"` or `"false"`; every other
value is left untouched. -/
def fixValue : PyValue → PyValue
  | .bool b => .str (if b then "true" else "false")
  | v => v

/-- `_fix_params` (base.py lines 71-75): iterates over a copy of the dict
and overwrites, in place, each boolean value with its string form, then
returns the same dict.  Keys and their order are unchanged; non-boolean
values are unchanged. -/
def _fix_params (params : Params) : Params :=
  params.map (fun kv => (kv.1, fixValue kv.2))

/-- How the HTTP layer (aiohttp / yarl) encodes one query-parameter value
into the outgoing URL: a `str` (including any `str`-subclassing enum
member, whose string content IS its underlying value) passes through, an
`int` is rendered in decimal, and any other type (a plain enum member,
a bool that survived normalization, `None`) raises `TypeError`, embedded
here as `Option.none`. -/
def serializeValue : PyValue → Option String
  | .str s => some s
  | .int n => some (toString n)
  | .enum _ v sub => if sub then some v else Option.none
  | .bool _ => Option.none
  | .none => Option.none

/-- Encoding of a whole parameter mapping into outgoing query pairs; fails
(`Option.none`) as soon as one value is not encodable, as yarl does. -/
def serializeParams : Params → Option (List (String × String))
  | [] => some []
  | (k, v) :: rest =>
    match serializeValue v, serializeParams rest with
    | some s, some tail => some ((k, s) :: tail)
    | _, _ => Option.none

/-- The `Region` enum (client.py lines 6-8): a `str`-subclassing enum with
members `US = "US"` and `EMEA = "EMEA"`. -/
inductive Region where
  | US
  | EMEA
  deriving DecidableEq, Repr

/-- A `Region` member's underlying string value. -/
def Region.value : Region → String
  | .US => "US"
  | .EMEA => "EMEA"

/-- A `Region` member's symbolic name. -/
def Region.symName : Region → String
  | .US => "US"
  | .EMEA => "EMEA"

/-- A `Region` member as the Python value it is: an enum member of a class
that also subclasses `str`. -/
def Region.toPyValue (r : Region) : PyValue :=
  .enum r.symName r.value true

/-- The parameter mapping built by `OSSClient.get_buckets`
(dm.py lines 120-126): each key is inserted only when the corresponding
(optional) argument is truthy. -/
def get_buckets_params (region limit start_at : PyValue) : Params :=
  (if region.truthy then [("region", region)] else []) ++
  (if limit.truthy then [("limit", limit)] else []) ++
  (if start_at.truthy then [("startAt", start_at)] else [])

/-- The parameter mapping built by
`ProjectManagementClient.get_project_top_folders` (dm.py lines 671-677):
the two boolean flags are inserted only when truthy. -/
def get_project_top_folders_params (exclude_deleted project_files_only : PyValue) : Params :=
  (if exclude_deleted.truthy then [("excludeDeleted", exclude_deleted)] else []) ++
  (if project_files_only.truthy then [("projectFilesOnly", project_files_only)] else [])

/-- `_get_params_fix` (wh.py lines 519-529): builds a fresh mapping,
dropping `None`-valued entries and replacing each enum member by its
underlying value. -/
def _get_params_fix : Params → Params
  | [] => []
  | (_, .none) :: rest => _get_params_fix rest
  | (k, .enum _ v _) :: rest => (k, .str v) :: _get_params_fix rest
  | (k, v) :: rest => (k, v) :: _get_params_fix rest

/-- The mutable state of a `BaseClient` (base.py line 14-15): just the
configured base URL. -/
structure BaseClient where
  base_url : String
  deriving DecidableEq, Repr

/-- Python's `url.startswith("/")`: true iff the first character of the
string is `'/'`. -/
def startswith_slash (url : String) : Bool :=
  url.data.head? = some '/'

/-- `BaseClient._resolve_url` (base.py lines 17-20): a path starting with
`"/"` is prepended with the client's base URL; any other string is
returned verbatim.  The function only rebinds its local variable, so the
client state is returned unchanged alongside the resolved URL. -/
def _resolve_url (c : BaseClient) (url : String) : String × BaseClient :=
  if startswith_slash url then (c.base_url ++ url, c) else (url, c)

/-- An HTTP response as seen by the client: status code and raw body. -/
structure Response where
  status : Nat
  body : String
  deriving DecidableEq, Repr

/-- The error raised by aiohttp's `raise_for_status`
(`ClientResponseError`), carrying the response status code. -/
structure HttpError where
  status : Nat
  deriving DecidableEq, Repr

/-- aiohttp's `response.raise_for_status()`: raises an `HttpError` with
the response status when the status is at least 400, otherwise leaves the
response as is. -/
def raise_for_status (r : Response) : Except HttpError Response :=
  if 400 ≤ r.status then .error ⟨r.status⟩ else .ok r

/-- `BaseClient._request` (base.py lines 40-50) against a scripted
transport: the transport is the list of responses the server would return
to successive requests.  The method normalizes `params` with
`_fix_params`, opens one session, issues exactly one HTTP call (consuming
one scripted response), applies `raise_for_status`, and returns the
response unchanged on success.  The result pairs the outcome with the
number of HTTP calls issued; `Option.none` means the transport was
exhausted (no scripted response). -/
def _request (params : Option Params) (script : List Response) :
    Option ((Option Params) × Except HttpError Response × Nat) :=
  let sent := params.map _fix_params
  match script with
  | [] => Option.none
  | r :: _ => some (sent, raise_for_status r, 1)

/-- An item of a pagination `data` array (opaque at this layer). -/
abbrev Item := String

/-- The JSON object under `links.next` in a page envelope: may or may not
carry an `href` field. -/
structure NextLink where
  href : Option String
  deriving DecidableEq, Repr

/-- The JSON object under `links` in a page envelope: may or may not carry
a `next` field. -/
structure PageLinks where
  next : Option NextLink
  deriving DecidableEq, Repr

/-- A JSON page envelope as consumed by `_get_paginated`: the `data` field
and the `links` field may each be absent. -/
structure Page where
  data : Option (List Item)
  links : Option PageLinks
  deriving DecidableEq, Repr

/-- One GET request issued by the pagination loop: the URL together with
the `params` re-passed through `**kwargs`. -/
abbrev Request := String × Params

/-- Outcome of the pagination loop.  `ok` carries the accumulated items
and the trace of requests issued; `keyError` embeds the `KeyError` that
Python raises at `json["links"]` when the envelope has no `links` field
(the request trace up to the raise is kept); `fuelOut` is the artifact of
bounding the `while` loop by fuel and corresponds to a run longer than
the fuel allows. -/
inductive PagResult where
  | ok (items : List Item) (reqs : List Request)
  | keyError (reqs : List Request)
  | fuelOut
  deriving DecidableEq, Repr

/-- The request trace of a pagination outcome. -/
def PagResult.reqs : PagResult → List Request
  | .ok _ r => r
  | .keyError r => r
  | .fuelOut => []

/-- The body of the `while` loop of `ForgeClient._get_paginated`
(client.py lines 26-45), with the server modelled as a function from URL
to page envelope.  Each iteration issues one GET with the current `url`
and the same `**kwargs` (hence the same `params`), appends `data` to the
accumulator when present, and follows `links.next.href`.  `acc` and
`trace` are the accumulated items and requests; the fuel bounds the
number of iterations. -/
def _get_paginated_aux (server : String → Page) (params : Params) :
    Nat → String → List Item → List Request → PagResult
  | 0, _, _, _ => .fuelOut
  | fuel + 1, url, acc, trace =>
    let json := server url
    let trace := trace ++ [(url, params)]
    match json.data with
    | Option.none => .ok acc trace
    | some new_items =>
      let acc := acc ++ new_items
      match json.links with
      | Option.none => .keyError trace
      | some links =>
        match links.next with
        | Option.none => .ok acc trace
        | some nx =>
          match nx.href with
          | Option.none => .ok acc trace
          | some url2 => _get_paginated_aux server params fuel url2 acc trace

/-- `ForgeClient._get_paginated` (client.py lines 26-45): run the loop
from an empty accumulator. -/
def _get_paginated (fuel : Nat) (server : String → Page) (url : String)
    (params : Params) : PagResult :=
  _get_paginated_aux server params fuel url [] []

/-- A well-formed chain of pages reachable from a URL: every page has a
`data` list, every page but the last links to the next page's URL via
`links.next.href`, and the last page has `links` present but no `next`. -/
inductive Chain (server : String → Page) : String → List (List Item) → Prop
  | last (url : String) (ks : List Item) :
      server url = { data := some ks, links := some { next := Option.none } } →
      Chain server url [ks]
  | cons (url url2 : String) (ks : List Item) (rest : List (List Item)) :
      server url = { data := some ks,
                     links := some { next := some { href := some url2 } } } →
      Chain server url2 rest →
      Chain server url (ks :: rest)

/-- Modelled from the spec: the `Scope` enumeration of `auth.py` (the
module is referenced by the clients and tests but its source is not among
the core files here).  The members are the permission tags the SDK and
its tests use. -/
inductive Scope where
  | bucket_create
  | bucket_read
  | bucket_delete
  | data_read
  | data_create
  | data_write
  | viewables_read
  | user_read
  deriving DecidableEq, Repr

/-- Modelled from the spec: a `Token` as cached by the OAuth2
client-credentials provider of `auth.py` — an opaque access-token string,
an expiry timestamp, and the set of scopes it was issued for.  It is
stale once its expiry timestamp is reached. -/
structure Token where
  access_token : String
  expires_at : Nat
  scopes : List Scope
  deriving DecidableEq, Repr

/-- Does this token's scope set cover every requested scope? -/
def Token.covers (t : Token) (requested : List Scope) : Bool :=
  requested.all (fun s => t.scopes.contains s)

/-- Modelled from the spec: the state of `OAuthTokenProvider` of
`auth.py` — zero or one cached `Token` (the client credentials it also
holds play no role in the caching contract and are omitted). -/
structure OAuthTokenProvider where
  cached : Option Token
  deriving DecidableEq, Repr

/-- Modelled from the spec: `OAuthTokenProvider.get_token` of `auth.py`.
If the cached token is missing, expired at the current time, or does not
cover the requested scopes, perform one two-legged grant exchange
(`mint`, standing for the POST to the authentication endpoint) and cache
its result; otherwise return the cached token unchanged.  The result
carries the token handed to the caller, the provider state after the
call, and the number of grant exchanges performed during the call. -/
def get_token (mint : List Scope → Token) (p : OAuthTokenProvider)
    (scopes : List Scope) (now : Nat) : Token × OAuthTokenProvider × Nat :=
  match p.cached with
  | some t =>
    if t.covers scopes && decide (now < t.expires_at) then (t, p, 0)
    else
      let t2 := mint scopes
      (t2, ⟨some t2⟩, 1)
  | Option.none =>
    let t2 := mint scopes
    (t2, ⟨some t2⟩, 1)

/-! Helper lemmas shared by the claim theorems. -/

/-- Every request recorded by the pagination loop carries the `params`
the loop was started with, provided the incoming trace already does. -/
theorem _get_paginated_aux_reqs_params (server : String → Page) (params : Params) :
    ∀ (fuel : Nat) (url : String) (acc : List Item) (trace : List Request),
      (∀ r ∈ trace, r.2 = params) →
      ∀ r ∈ (_get_paginated_aux server params fuel url acc trace).reqs, r.2 = params := by
  intro fuel
  induction fuel with
  | zero =>
    intro url acc trace _ r hr
    simp [_get_paginated_aux, PagResult.reqs] at hr
  | succ n ih =>
    intro url acc trace htrace r hr
    have hext : ∀ q ∈ trace ++ [(url, params)], q.2 = params := by
      intro q hq
      rcases List.mem_append.mp hq with h | h
      · exact htrace q h
      · simp at h; simp [h]
    have hstep : ∀ h : r ∈ trace ∨ r = (url, params), r.2 = params := by
      intro h
      rcases h with h | h
      · exact htrace r h
      · simp [h]
    unfold _get_paginated_aux at hr
    rcases hd : (server url).data with _ | new_items
    · simp [hd, PagResult.reqs] at hr
      exact hstep hr
    · rcases hl : (server url).links with _ | links
      · simp [hd, hl, PagResult.reqs] at hr
        exact hstep hr
      · rcases hn : links.next with _ | nx
        · simp [hd, hl, hn, PagResult.reqs] at hr
          exact hstep hr
        · rcases hh : nx.href with _ | url2
          · simp [hd, hl, hn, hh, PagResult.reqs] at hr
            exact hstep hr
          · simp only [hd, hl, hn, hh] at hr
            exact ih url2 (acc ++ new_items) (trace ++ [(url, params)]) hext r hr

/-- Running the loop along a well-formed chain of pages appends exactly
the concatenation of the chain's `data` lists to the accumulator. -/
theorem _get_paginated_aux_chain (server : String → Page) (params : Params) :
    ∀ (pages : List (List Item)) (url : String), Chain server url pages →
      ∀ (fuel : Nat) (acc : List Item) (trace : List Request),
        pages.length ≤ fuel →
        ∃ reqs, _get_paginated_aux server params fuel url acc trace =
          .ok (acc ++ pages.flatten) reqs := by
  intro pages url hch
  induction hch with
  | last u ks hsrv =>
    intro fuel acc trace hf
    match fuel, hf with
    | fuel + 1, _ =>
      refine ⟨trace ++ [(u, params)], ?_⟩
      simp [_get_paginated_aux, hsrv]
  | cons u u2 ks rest hsrv _ ih =>
    intro fuel acc trace hf
    match fuel, hf with
    | fuel + 1, hf =>
      have hrest : rest.length ≤ fuel := by
        simp only [List.length_cons] at hf
        omega
      obtain ⟨reqs, hreqs⟩ := ih fuel (acc ++ ks) (trace ++ [(u, params)]) hrest
      refine ⟨reqs, ?_⟩
      simp only [_get_paginated_aux, hsrv, hreqs, List.flatten_cons, List.append_assoc]

/-- Serialization of a mapping maps each entry to its encoded form. -/
theorem serializeParams_mem :
    ∀ (ps : Params) (outs : List (String × String)) (k : String) (v : PyValue),
      serializeParams ps = some outs → (k, v) ∈ ps →
      ∃ s, serializeValue v = some s ∧ (k, s) ∈ outs := by
  intro ps
  induction ps with
  | nil =>
    intro outs k v _ hmem
    simp at hmem
  | cons kv rest ih =>
    intro outs k v hser hmem
    obtain ⟨k1, v1⟩ := kv
    rcases hs1 : serializeValue v1 with _ | s1 <;>
      rcases hrest : serializeParams rest with _ | tail <;>
      simp [serializeParams, hs1, hrest] at hser
    subst hser
    rcases List.mem_cons.mp hmem with h | h
    · obtain ⟨hk, hv⟩ := Prod.ext_iff.mp h
      subst hk
      subst hv
      exact ⟨s1, hs1, List.mem_cons_self _ _⟩
    · obtain ⟨s, hsv, hmem2⟩ := ih tail k v hrest h
      exact ⟨s, hsv, List.mem_cons_of_mem _ hmem2⟩

/-- `_get_params_fix` rewrites each enum entry to its underlying value. -/
theorem _get_params_fix_enum_mem :
    ∀ (m : Params) (k nm v : String) (b : Bool),
      (k, PyValue.enum nm v b) ∈ m → (k, PyValue.str v) ∈ _get_params_fix m := by
  intro m
  induction m with
  | nil =>
    intro k nm v b hmem
    simp at hmem
  | cons kv rest ih =>
    intro k nm v b hmem
    obtain ⟨k1, v1⟩ := kv
    rcases List.mem_cons.mp hmem with h | h
    · obtain ⟨hk, hv⟩ := Prod.ext_iff.mp h
      subst hk
      subst hv
      simp [_get_params_fix]
    · cases v1 <;> simp [_get_params_fix, ih k nm v b h]

/-- `_get_params_fix` never keeps a `None`-valued entry. -/
theorem _get_params_fix_no_none :
    ∀ (m : Params), ∀ kv ∈ _get_params_fix m, kv.2 ≠ PyValue.none := by
  intro m
  induction m with
  | nil =>
    intro kv hkv
    simp [_get_params_fix] at hkv
  | cons hd rest ih =>
    intro kv hkv
    obtain ⟨k1, v1⟩ := hd
    cases v1 <;> simp [_get_params_fix] at hkv <;>
      first
        | exact ih kv hkv
        | rcases hkv with h | h
          · simp [h]
          · exact ih kv h

/-! Concrete fixtures used by witnesses and counterexamples. -/

/-- A mock server with two chained pages: `/a` holds two items and links
to `/b`, which holds one item and no `next` link. -/
def twoPageServer : String → Page := fun u =>
  if u = "/a" then
    { data := some ["i1", "i2"], links := some { next := some { href := some "/b" } } }
  else if u = "/b" then
    { data := some ["i3"], links := some { next := Option.none } }
  else
    { data := Option.none, links := Option.none }

/-- A mock server whose page has a `data` list but no `links` field. -/
def noLinksServer : String → Page := fun _ =>
  { data := some ["x"], links := Option.none }

/-- A mock server whose page has no `data` field. -/
def noDataServer : String → Page := fun _ =>
  { data := Option.none, links := some { next := some { href := some "/a" } } }

/-- A mock server whose page has `links` but no `next` field. -/
def noNextServer : String → Page := fun _ =>
  { data := some ["x"], links := some { next := Option.none } }

/-- A mock server whose page has `links.next` but no `href` field. -/
def noHrefServer : String → Page := fun _ =>
  { data := some ["x"], links := some { next := some { href := Option.none } } }

/-! Claim theorems. -/

/--
C1, counterexample to the claim as stated: on a two-page run with caller
params `limit=2`, the second request — issued against the `links.next.href`
URL `/b` — re-sends the original params rather than carrying none, because
the loop passes the same `**kwargs` to every iteration.
-/
theorem c1_params_resent_counterexample :
    ((_get_paginated 5 twoPageServer "/a" [("limit", PyValue.int 2)]).reqs).drop 1 =
      [("/b", [("limit", PyValue.int 2)])]
  ∧ ((_get_paginated 5 twoPageServer "/a" [("limit", PyValue.int 2)]).reqs).drop 1 ≠
      [("/b", ([] : Params))] := by
  decide

/--
C1, amended: every request issued by `_get_paginated` — the first and
every follow-up against the `links.next.href` URL — carries the
caller-supplied `params`, because the loop re-passes its `**kwargs`
unchanged on every iteration; only the URL changes between iterations.
-/
theorem c1_every_request_carries_original_params
    (fuel : Nat) (server : String → Page) (url : String) (params : Params) :
    ∀ r ∈ (_get_paginated fuel server url params).reqs, r.2 = params := by
  intro r hr
  exact _get_paginated_aux_reqs_params server params fuel url [] []
    (by intro q hq; simp at hq) r hr

/-- C1 witness: the amended theorem applied to the concrete two-page run,
at the follow-up request to `/b`. -/
theorem c1_every_request_carries_original_params_witness :
    (("/b", [("limit", PyValue.int 2)]) : Request).2 = [("limit", PyValue.int 2)] :=
  c1_every_request_carries_original_params 5 twoPageServer "/a"
    [("limit", PyValue.int 2)] ("/b", [("limit", PyValue.int 2)]) (by decide)

/--
C2, counterexample to the claim as stated: a page whose envelope has a
`data` list but no `links` field makes `_get_paginated` raise a
`KeyError` at `json["links"]` (the `keyError` outcome) instead of
terminating normally with the accumulated items.
-/
theorem c2_missing_links_raises_counterexample :
    _get_paginated 3 noLinksServer "/a" [] = PagResult.keyError [("/a", [])] := by
  decide

/--
C2, amended: the loop terminates normally, returning the items
accumulated so far, when the envelope has no `data` field, when `links`
is present but has no `next` field, or when `next` is present but has no
`href` field; but when the `links` field itself is absent (and `data` is
present) the loop raises a `KeyError` rather than terminating normally.
-/
theorem c2_stop_conditions_vs_missing_links (server : String → Page)
    (url : String) (params : Params) (fuel : Nat) (acc : List Item)
    (trace : List Request) :
    (∀ L, server url = { data := Option.none, links := L } →
      _get_paginated_aux server params (fuel + 1) url acc trace =
        .ok acc (trace ++ [(url, params)]))
  ∧ (∀ ks, server url = { data := some ks, links := some { next := Option.none } } →
      _get_paginated_aux server params (fuel + 1) url acc trace =
        .ok (acc ++ ks) (trace ++ [(url, params)]))
  ∧ (∀ ks, server url =
        { data := some ks, links := some { next := some { href := Option.none } } } →
      _get_paginated_aux server params (fuel + 1) url acc trace =
        .ok (acc ++ ks) (trace ++ [(url, params)]))
  ∧ (∀ ks, server url = { data := some ks, links := Option.none } →
      _get_paginated_aux server params (fuel + 1) url acc trace =
        .keyError (trace ++ [(url, params)])) := by
  refine ⟨?_, ?_, ?_, ?_⟩ <;> intro x hsrv <;> simp [_get_paginated_aux, hsrv]

/-- C2 witness: the amended theorem applied to four concrete single-page
servers, one per stop condition and one for the raising case. -/
theorem c2_stop_conditions_vs_missing_links_witness :
    _get_paginated_aux noDataServer [] 1 "/a" [] [] = .ok [] [("/a", [])]
  ∧ _get_paginated_aux noNextServer [] 1 "/a" [] [] = .ok ["x"] [("/a", [])]
  ∧ _get_paginated_aux noHrefServer [] 1 "/a" [] [] = .ok ["x"] [("/a", [])]
  ∧ _get_paginated_aux noLinksServer [] 1 "/a" [] [] = .keyError [("/a", [])] :=
  ⟨(c2_stop_conditions_vs_missing_links noDataServer "/a" [] 0 [] []).1
      (some { next := some { href := some "/a" } }) rfl,
   (c2_stop_conditions_vs_missing_links noNextServer "/a" [] 0 [] []).2.1 ["x"] rfl,
   (c2_stop_conditions_vs_missing_links noHrefServer "/a" [] 0 [] []).2.2.1 ["x"] rfl,
   (c2_stop_conditions_vs_missing_links noLinksServer "/a" [] 0 [] []).2.2.2 ["x"] rfl⟩

/--
C4: along a well-formed chain of pages (every page has `data`, every page
but the last links to the next URL, the last has no `next` link),
`_get_paginated` returns exactly the concatenation of the pages' `data`
lists in page order, whose length is the sum of the page lengths.
-/
theorem c4_pagination_concatenates_pages (server : String → Page)
    (url : String) (pages : List (List Item)) (params : Params) (fuel : Nat)
    (hch : Chain server url pages) (hf : pages.length ≤ fuel) :
    ∃ reqs, _get_paginated fuel server url params = .ok pages.flatten reqs ∧
      pages.flatten.length = (pages.map List.length).sum := by
  obtain ⟨reqs, hreqs⟩ :=
    _get_paginated_aux_chain server params pages url hch fuel [] [] hf
  exact ⟨reqs, by simpa [_get_paginated] using hreqs, by simp [List.length_flatten]⟩

/-- C4 witness: the theorem applied to the concrete two-page server
(2 items on the first page, 1 on the second). -/
theorem c4_pagination_concatenates_pages_witness :
    ∃ reqs, _get_paginated 5 twoPageServer "/a" [] = .ok ["i1", "i2", "i3"] reqs ∧
      (["i1", "i2", "i3"] : List Item).length =
        (([["i1", "i2"], ["i3"]] : List (List Item)).map List.length).sum := by
  have hch : Chain twoPageServer "/a" [["i1", "i2"], ["i3"]] :=
    Chain.cons "/a" "/b" ["i1", "i2"] [["i3"]] (by decide)
      (Chain.last "/b" ["i3"] (by decide))
  exact c4_pagination_concatenates_pages twoPageServer "/a" _ [] 5 hch (by decide)

/--
C3: for the stateful OAuth2 token provider, a cached token is returned
unchanged (with no grant exchange) if and only if its scope set covers
the requested scopes and it is unexpired; otherwise — including a cold
cache — exactly one grant exchange is performed; and two consecutive
`get_token` calls with the same scope set, starting from an empty cache
and with the second call before the minted token's expiry, perform
exactly one grant exchange in total, the second call reusing the cache.
-/
theorem c3_token_cache_reuse (mint : List Scope → Token)
    (p : OAuthTokenProvider) (t : Token) (scopes : List Scope)
    (now now2 : Nat) :
    (p.cached = some t →
      (get_token mint p scopes now = (t, p, 0) ↔
        (t.covers scopes = true ∧ now < t.expires_at)))
  ∧ (p.cached = some t → ¬(t.covers scopes = true ∧ now < t.expires_at) →
      (get_token mint p scopes now).2.2 = 1)
  ∧ (p.cached = Option.none → (get_token mint p scopes now).2.2 = 1)
  ∧ ((mint scopes).covers scopes = true → now2 < (mint scopes).expires_at →
      (get_token mint ⟨Option.none⟩ scopes now).2.2 +
        (get_token mint
          (get_token mint ⟨Option.none⟩ scopes now).2.1 scopes now2).2.2 = 1
      ∧ (get_token mint
          (get_token mint ⟨Option.none⟩ scopes now).2.1 scopes now2).1 =
        (get_token mint ⟨Option.none⟩ scopes now).1) := by
  refine ⟨?_, ?_, ?_, ?_⟩
  · intro hc
    by_cases hcond : t.covers scopes = true ∧ now < t.expires_at
    · have hb : (t.covers scopes && decide (now < t.expires_at)) = true := by
        simp [hcond.1, hcond.2]
      simp only [get_token, hc, hb, if_true]
      exact iff_of_true (by trivial) hcond
    · have hb : (t.covers scopes && decide (now < t.expires_at)) = false := by
        rcases Decidable.not_and_iff_or_not.mp hcond with h | h
        · simp [Bool.eq_false_iff.mpr h]
        · simp [decide_eq_false h, Bool.and_eq_false_iff]
      simp only [get_token, hc, hb, Bool.false_eq_true, if_false]
      refine iff_of_false ?_ hcond
      intro heq
      have : (1 : Nat) = 0 := congrArg (fun x => x.2.2) heq
      exact Nat.one_ne_zero this
  · intro hc hcond
    have hb : (t.covers scopes && decide (now < t.expires_at)) = false := by
      rcases Decidable.not_and_iff_or_not.mp hcond with h | h
      · simp [Bool.eq_false_iff.mpr h]
      · simp [decide_eq_false h, Bool.and_eq_false_iff]
    simp [get_token, hc, hb]
  · intro hc
    simp [get_token, hc]
  · intro hcov hfresh
    have h1 : get_token mint ⟨Option.none⟩ scopes now =
        (mint scopes, ⟨some (mint scopes)⟩, 1) := by
      simp [get_token]
    rw [h1]
    have hb : ((mint scopes).covers scopes &&
        decide (now2 < (mint scopes).expires_at)) = true := by
      simp [hcov, hfresh]
    simp [get_token, hb]

/-- C3 witness: a concrete mint function, a warm-cache reuse, a stale and
a scope-miss refresh, and the two-consecutive-calls scenario. -/
theorem c3_token_cache_reuse_witness :
    (get_token (fun ss => ⟨"tok", 100, ss⟩)
        ⟨some ⟨"cached", 100, [Scope.data_read]⟩⟩ [Scope.data_read] 50 =
      (⟨"cached", 100, [Scope.data_read]⟩,
        ⟨some ⟨"cached", 100, [Scope.data_read]⟩⟩, 0))
  ∧ (get_token (fun ss => ⟨"tok", 100, ss⟩)
        ⟨some ⟨"cached", 100, [Scope.data_read]⟩⟩ [Scope.data_read] 100).2.2 = 1
  ∧ (get_token (fun ss => ⟨"tok", 100, ss⟩)
        ⟨some ⟨"cached", 100, [Scope.data_read]⟩⟩ [Scope.bucket_read] 50).2.2 = 1
  ∧ (get_token (fun ss => ⟨"tok", 100, ss⟩) ⟨Option.none⟩ [Scope.data_read] 0).2.2 +
      (get_token (fun ss => ⟨"tok", 100, ss⟩)
        (get_token (fun ss => ⟨"tok", 100, ss⟩) ⟨Option.none⟩
          [Scope.data_read] 0).2.1 [Scope.data_read] 50).2.2 = 1 := by
  refine ⟨?_, ?_, ?_, ?_⟩
  · exact (c3_token_cache_reuse (fun ss => ⟨"tok", 100, ss⟩)
      ⟨some ⟨"cached", 100, [Scope.data_read]⟩⟩ ⟨"cached", 100, [Scope.data_read]⟩
      [Scope.data_read] 50 0).1 rfl |>.mpr (by decide)
  · exact (c3_token_cache_reuse (fun ss => ⟨"tok", 100, ss⟩)
      ⟨some ⟨"cached", 100, [Scope.data_read]⟩⟩ ⟨"cached", 100, [Scope.data_read]⟩
      [Scope.data_read] 100 0).2.1 rfl (by decide)
  · exact (c3_token_cache_reuse (fun ss => ⟨"tok", 100, ss⟩)
      ⟨some ⟨"cached", 100, [Scope.data_read]⟩⟩ ⟨"cached", 100, [Scope.data_read]⟩
      [Scope.bucket_read] 50 0).2.1 rfl (by decide)
  · exact ((c3_token_cache_reuse (fun ss => ⟨"tok", 100, ss⟩)
      ⟨Option.none⟩ ⟨"tok", 100, [Scope.data_read]⟩
      [Scope.data_read] 0 50).2.2.2 (by decide) (by decide)).1

/--
C5: an enum-valued entry of a parameter mapping is serialized into the
outgoing request as the enum member's underlying string value, not its
symbolic name: a `Region` value (a `str`-subclassing enum, passed raw as
in `get_buckets`) survives `_fix_params` and encodes as its underlying
value, and `_get_params_fix` (the webhooks call sites) rewrites any enum
entry to its underlying value before the mapping is passed on.
-/
theorem c5_enum_params_serialized_as_value :
    (∀ (ps : Params) (k : String) (r : Region) (outs : List (String × String)),
        (k, r.toPyValue) ∈ ps → serializeParams (_fix_params ps) = some outs →
        (k, r.value) ∈ outs)
  ∧ (∀ (m : Params) (k nm v : String) (b : Bool),
        (k, PyValue.enum nm v b) ∈ m → (k, PyValue.str v) ∈ _get_params_fix m) := by
  constructor
  · intro ps k r outs hmem hser
    have hmem2 : (k, r.toPyValue) ∈ _fix_params ps :=
      List.mem_map_of_mem (fun kv => (kv.1, fixValue kv.2)) hmem
    obtain ⟨s, hs, hout⟩ :=
      serializeParams_mem (_fix_params ps) outs k r.toPyValue hser hmem2
    have hsv : s = r.value := by
      simp [Region.toPyValue, serializeValue] at hs
      exact hs.symm
    exact hsv ▸ hout
  · exact _get_params_fix_enum_mem

/-- C5 witness: a raw `Region.EMEA` entry serializes as `"EMEA"`, and an
event-enum entry (symbolic name `version_added`, underlying value
`"dm.version.added"`) is rewritten to its underlying value by
`_get_params_fix`. -/
theorem c5_enum_params_serialized_as_value_witness :
    (("region", "EMEA") ∈ [("region", "EMEA")]
      ∧ ("event", PyValue.str "dm.version.added") ∈
          _get_params_fix [("event",
            PyValue.enum "version_added" "dm.version.added" true)]) :=
  ⟨c5_enum_params_serialized_as_value.1 [("region", Region.toPyValue Region.EMEA)]
      "region" Region.EMEA [("region", "EMEA")] (by decide) (by decide),
   c5_enum_params_serialized_as_value.2
      [("event", PyValue.enum "version_added" "dm.version.added" true)]
      "event" "version_added" "dm.version.added" true (by decide)⟩

/--
C6, counterexample to the claim as stated: the normalization step
`_fix_params` leaves a `None`-valued entry exactly where it was, and the
transport then fails to encode the mapping (a `TypeError`) rather than
omitting the key from the outgoing request.
-/
theorem c6_none_not_dropped_counterexample :
    _fix_params [("region", PyValue.none)] = [("region", PyValue.none)]
  ∧ serializeParams (_fix_params [("region", PyValue.none)]) = Option.none := by
  decide

/--
C6, amended: `None`-valued entries never reach the request layer because
the call sites omit them when building the mapping — `get_buckets` and
`get_project_top_folders` insert a key only when the argument is truthy,
and the webhooks helper `_get_params_fix` filters `None` out — so no key
of an outgoing request ever carries a null value; the normalization step
itself does not drop them.
-/
theorem c6_none_dropped_at_call_sites :
    (∀ region limit start_at : PyValue,
        ∀ kv ∈ get_buckets_params region limit start_at, kv.2 ≠ PyValue.none)
  ∧ (∀ ed pf : PyValue,
        ∀ kv ∈ get_project_top_folders_params ed pf, kv.2 ≠ PyValue.none)
  ∧ (∀ m : Params, ∀ kv ∈ _get_params_fix m, kv.2 ≠ PyValue.none) := by
  have htruthy : ∀ v : PyValue, v.truthy = true → v ≠ PyValue.none := by
    intro v h hv
    subst hv
    simp [PyValue.truthy] at h
  have hguard : ∀ (c : Bool) (x kv : String × PyValue),
      kv ∈ (if c then [x] else []) → kv = x ∧ c = true := by
    intro c x kv h
    cases c <;> simp_all
  refine ⟨?_, ?_, _get_params_fix_no_none⟩
  · intro region limit start_at kv hkv
    rcases List.mem_append.mp hkv with h | h
    · rcases List.mem_append.mp h with h2 | h2
      · obtain ⟨hx, hc⟩ := hguard _ _ _ h2
        subst hx
        exact htruthy region hc
      · obtain ⟨hx, hc⟩ := hguard _ _ _ h2
        subst hx
        exact htruthy limit hc
    · obtain ⟨hx, hc⟩ := hguard _ _ _ h
      subst hx
      exact htruthy start_at hc
  · intro ed pf kv hkv
    rcases List.mem_append.mp hkv with h | h
    · obtain ⟨hx, hc⟩ := hguard _ _ _ h
      subst hx
      exact htruthy ed hc
    · obtain ⟨hx, hc⟩ := hguard _ _ _ h
      subst hx
      exact htruthy pf hc

/-- C6 witness: the amended theorem applied to the concrete `get_buckets`
mapping for `region=US, limit=10` and to a concrete webhooks mapping. -/
theorem c6_none_dropped_at_call_sites_witness :
    (("limit", PyValue.int 10) : String × PyValue).2 ≠ PyValue.none
  ∧ (("region", PyValue.str "US") : String × PyValue).2 ≠ PyValue.none :=
  ⟨c6_none_dropped_at_call_sites.1 (Region.toPyValue Region.US) (PyValue.int 10)
      PyValue.none ("limit", PyValue.int 10) (by decide),
   c6_none_dropped_at_call_sites.2.2 [("region", PyValue.str "US"), ("x", PyValue.none)]
      ("region", PyValue.str "US") (by decide)⟩

/--
C7: after `_fix_params` normalization, a key that mapped to a boolean
maps to the literal string `"true"` or `"false"`, and no entry of the
normalized mapping is a native boolean.
-/
theorem c7_booleans_become_literal_strings (ps : Params) :
    (∀ (k : String) (b : Bool), ps.lookup k = some (PyValue.bool b) →
      (_fix_params ps).lookup k = some (PyValue.str (if b then "true" else "false")))
  ∧ (∀ kv ∈ _fix_params ps, kv.2.isBool = false) := by
  constructor
  · intro k b
    induction ps with
    | nil =>
      intro h
      simp [List.lookup] at h
    | cons hd rest ih =>
      intro h
      obtain ⟨k1, v1⟩ := hd
      by_cases hk : k == k1
      · simp only [List.lookup, hk] at h
        simp only [_fix_params, List.map_cons, List.lookup, hk]
        obtain hv := Option.some.inj h
        rw [hv]
        rfl
      · simp only [List.lookup, hk] at h
        simp only [_fix_params, List.map_cons, List.lookup, hk]
        exact ih h
  · intro kv hkv
    obtain ⟨pre, _, hpre⟩ := List.mem_map.mp hkv
    cases hv : pre.2 <;> simp [← hpre, hv, fixValue, PyValue.isBool]

/-- C7 witness: the theorem applied to the `get_project_top_folders`
mapping with both flags set, and to a mapping holding a false flag. -/
theorem c7_booleans_become_literal_strings_witness :
    (_fix_params [("excludeDeleted", PyValue.bool true),
        ("projectFilesOnly", PyValue.bool false)]).lookup "excludeDeleted" =
      some (PyValue.str "true")
  ∧ (_fix_params [("excludeDeleted", PyValue.bool true),
        ("projectFilesOnly", PyValue.bool false)]).lookup "projectFilesOnly" =
      some (PyValue.str "false") := by
  have h := c7_booleans_become_literal_strings
    [("excludeDeleted", PyValue.bool true), ("projectFilesOnly", PyValue.bool false)]
  exact ⟨h.1 "excludeDeleted" true (by decide), h.1 "projectFilesOnly" false (by decide)⟩

/--
C8: `_resolve_url` concatenates the configured base URL with the path
when the path starts with `"/"` and returns any other path verbatim; the
client's `base_url` field is unchanged in both cases.
-/
theorem c8_resolve_url_base_relative (c : BaseClient) (url : String) :
    (startswith_slash url = true → _resolve_url c url = (c.base_url ++ url, c))
  ∧ (startswith_slash url = false → _resolve_url c url = (url, c))
  ∧ (_resolve_url c url).2 = c := by
  refine ⟨?_, ?_, ?_⟩
  · intro h
    simp [_resolve_url, h]
  · intro h
    simp [_resolve_url, h]
  · unfold _resolve_url
    split <;> rfl

/-- C8 witness: the theorem applied to a relative path and to an
absolute cross-host URL. -/
theorem c8_resolve_url_base_relative_witness :
    _resolve_url ⟨"https://developer.api.autodesk.com/oss/v2"⟩ "/buckets" =
      ("https://developer.api.autodesk.com/oss/v2/buckets",
        ⟨"https://developer.api.autodesk.com/oss/v2"⟩)
  ∧ _resolve_url ⟨"https://developer.api.autodesk.com/oss/v2"⟩
      "https://other.host/signed" = ("https://other.host/signed",
        ⟨"https://developer.api.autodesk.com/oss/v2"⟩) :=
  ⟨(c8_resolve_url_base_relative ⟨"https://developer.api.autodesk.com/oss/v2"⟩
      "/buckets").1 (by decide),
   (c8_resolve_url_base_relative ⟨"https://developer.api.autodesk.com/oss/v2"⟩
      "https://other.host/signed").2.1 (by decide)⟩

/--
C9: `_request` raises an HTTP error carrying the response's status code
if and only if the status is at least 400, issues exactly one HTTP call
(no retry) in either case, and returns the response unchanged when the
status is below 400.
-/
theorem c9_request_raises_iff_status_ge_400 (params : Option Params)
    (r : Response) (rest : List Response) :
    (400 ≤ r.status → _request params (r :: rest) =
      some (params.map _fix_params, Except.error ⟨r.status⟩, 1))
  ∧ (r.status < 400 → _request params (r :: rest) =
      some (params.map _fix_params, Except.ok r, 1)) := by
  constructor
  · intro h
    simp [_request, raise_for_status, h]
  · intro h
    simp [_request, raise_for_status, Nat.not_le.mpr h]

/-- C9 witness: the theorem applied to a mock 403 response and to a mock
200 response. -/
theorem c9_request_raises_iff_status_ge_400_witness :
    _request Option.none [⟨403, "forbidden"⟩] =
      some (Option.none, Except.error ⟨403⟩, 1)
  ∧ _request Option.none [⟨200, "ok"⟩] =
      some (Option.none, Except.ok ⟨200, "ok"⟩, 1) :=
  ⟨(c9_request_raises_iff_status_ge_400 Option.none ⟨403, "forbidden"⟩ []).1
      (by decide),
   (c9_request_raises_iff_status_ge_400 Option.none ⟨200, "ok"⟩ []).2
      (by decide)⟩

/--
C10: `_fix_params` returns the mapping it was handed with every key in
place and in order, each boolean entry rewritten in place to its literal
string form and every non-boolean entry (including `None` and enum
values) left exactly as it was, with no key added or removed.
-/
theorem c10_fix_params_in_place_frame (ps : Params) :
    ((_fix_params ps).map Prod.fst = ps.map Prod.fst)
  ∧ (∀ i : Nat, (_fix_params ps)[i]? =
      (ps[i]?).map (fun kv => (kv.1, fixValue kv.2)))
  ∧ (∀ b : Bool, fixValue (PyValue.bool b) =
      PyValue.str (if b then "true" else "false"))
  ∧ (∀ v : PyValue, v.isBool = false → fixValue v = v) := by
  refine ⟨?_, ?_, fun _ => rfl, ?_⟩
  · simp [_fix_params]
  · intro i
    simp [_fix_params, List.getElem?_map]
  · intro v hv
    cases v <;> simp [PyValue.isBool, fixValue] at hv ⊢

/-- C10 witness: the theorem applied to a mapping mixing a boolean, a
string, an enum and a `None` entry. -/
theorem c10_fix_params_in_place_frame_witness :
    (_fix_params [("a", PyValue.bool true), ("b", PyValue.str "x"),
        ("c", PyValue.enum "US" "US" true), ("d", PyValue.none)]).map Prod.fst =
      ["a", "b", "c", "d"]
  ∧ fixValue (PyValue.str "x") = PyValue.str "x" := by
  have h := c10_fix_params_in_place_frame
    [("a", PyValue.bool true), ("b", PyValue.str "x"),
     ("c", PyValue.enum "US" "US" true), ("d", PyValue.none)]
  exact ⟨h.1, h.2.2.2 (PyValue.str "x") (by decide)⟩

end ForgeSdk
